import Mathlib

/-!
Shallow embedding of `nmtpytorch/utils/nn.py`.

The file holds two pure utility functions:

* `get_rnn_hidden_state(h)`: returns `h` when `h` is not a tuple,
  otherwise `h[0]`.
* `mean_pool(data)`: unpacks `(x, mask)`; when a mask is present it
  returns `x.sum(0) / mask.sum(0).unsqueeze(1)`, otherwise `x.mean(0)`.

Tensors of shape `[T, B, F]` are embedded as functions
`Fin T → Fin B → Fin F → ℚ` (time-major, exact rational arithmetic),
2-D tensors as `Fin T → Fin B → ℚ`.  Python values passed to the
hidden-state extractor are embedded as a sum of an opaque scalar payload
and arbitrary-length tuples; indexing a tuple is fallible, so the
extractor returns an `Option`.
-/

namespace NN

/-- Python runtime value handed to the hidden-state extractor: either a
non-tuple value (a tensor) or a tuple of values of any length. -/
inductive PyVal (α : Type) : Type where
  | tensor : α → PyVal α
  | tuple : List (PyVal α) → PyVal α

/-- Embedding of `get_rnn_hidden_state(h)`: `h if not isinstance(h, tuple)
else h[0]`.  Indexing `h[0]` on an empty tuple raises in Python, hence the
`Option` result; on a non-empty tuple it is the first element. -/
def get_rnn_hidden_state {α : Type} (h : PyVal α) : Option (PyVal α) :=
  match h with
  | PyVal.tuple l => l.head?
  | _ => some h

/-- Embedding of `x.sum(0)` on a 3-D tensor of shape `[T,B,F]`: sum over
the time axis, producing shape `[B,F]`. -/
def sum_dim0_3 {T B F : ℕ} (x : Fin T → Fin B → Fin F → ℚ) :
    Fin B → Fin F → ℚ :=
  fun b f => ∑ t, x t b f

/-- Embedding of `mask.sum(0)` on a 2-D tensor of shape `[T,B]`: sum over
the time axis, producing shape `[B]`. -/
def sum_dim0_2 {T B : ℕ} (m : Fin T → Fin B → ℚ) : Fin B → ℚ :=
  fun b => ∑ t, m t b

/-- Embedding of `.unsqueeze(1)` on a 1-D tensor of shape `[B]`: insert a
size-1 axis, producing shape `[B,1]`. -/
def unsqueeze1 {B : ℕ} (v : Fin B → ℚ) : Fin B → Fin 1 → ℚ :=
  fun b _ => v b

/-- Embedding of elementwise division of a `[B,F]` tensor by a `[B,1]`
tensor with broadcasting over the second axis. -/
def bcast_div {B F : ℕ} (a : Fin B → Fin F → ℚ) (d : Fin B → Fin 1 → ℚ) :
    Fin B → Fin F → ℚ :=
  fun b f => a b f / d b 0

/-- Embedding of `x.mean(0)` on a 3-D tensor of shape `[T,B,F]`: the sum
over the time axis divided by the size `T` of that axis. -/
def mean_dim0 {T B F : ℕ} (x : Fin T → Fin B → Fin F → ℚ) :
    Fin B → Fin F → ℚ :=
  fun b f => (∑ t, x t b f) / (T : ℚ)

/-- Embedding of `mean_pool(data)`: unpack `(x, mask)`; when the mask is
present return `x.sum(0) / mask.sum(0).unsqueeze(1)`, otherwise return
`x.mean(0)`. -/
def mean_pool {T B F : ℕ}
    (data : (Fin T → Fin B → Fin F → ℚ) × Option (Fin T → Fin B → ℚ)) :
    Fin B → Fin F → ℚ :=
  let x := data.1
  let mask := data.2
  match mask with
  | some m => bcast_div (sum_dim0_3 x) (unsqueeze1 (sum_dim0_2 m))
  | none => mean_dim0 x

/-- Materialisation of a `[B,F]` tensor as a nested list, to state shape
facts (rank 2, outer length `B`, each row of length `F`). -/
def toLists {B F : ℕ} (g : Fin B → Fin F → ℚ) : List (List ℚ) :=
  List.ofFn fun b => List.ofFn fun f => g b f

/-- Restatement of the spec's masked-case algorithm, following the spec's
words: sum the sequence over Time, sum the mask over Time, and divide
elementwise with broadcast over Features. -/
def specMaskedPool {T B F : ℕ} (x : Fin T → Fin B → Fin F → ℚ)
    (m : Fin T → Fin B → ℚ) : Fin B → Fin F → ℚ :=
  fun b f => (∑ t, x t b f) / (∑ t, m t b)

/-- Set of time steps marked valid by the mask for batch element `b`. -/
def validSteps {T B : ℕ} (m : Fin T → Fin B → ℚ) (b : Fin B) :
    Finset (Fin T) :=
  Finset.univ.filter (fun t => m t b = 1)

/-- Concrete sequence of the spec's masked-pooling example:
`T = 3, B = 1, F = 1`, values `1, 2, 3` per time step. -/
def xEx : Fin 3 → Fin 1 → Fin 1 → ℚ :=
  fun t _ _ => if t.val = 0 then 1 else if t.val = 1 then 2 else 3

/-- Concrete mask of the spec's masked-pooling example: `1, 0, 1` per
time step. -/
def maskEx : Fin 3 → Fin 1 → ℚ :=
  fun t _ => if t.val = 1 then 0 else 1

/-- Zero-padded variant of the example sequence: the value at the masked
out time step is `0`, as encoders produce for padded positions. -/
def xPad : Fin 3 → Fin 1 → Fin 1 → ℚ :=
  fun t _ _ => if t.val = 0 then 1 else if t.val = 1 then 0 else 3

/-- The outer list of `toLists g` has length `B`. -/
theorem toLists_length {B F : ℕ} (g : Fin B → Fin F → ℚ) :
    (toLists g).length = B := by
  simp [toLists]

/-- Every row of `toLists g` has length `F`. -/
theorem toLists_row_length {B F : ℕ} (g : Fin B → Fin F → ℚ) :
    ∀ r ∈ toLists g, r.length = F := by
  intro r hr
  rw [toLists, List.mem_ofFn] at hr
  obtain ⟨b, hb⟩ := hr
  simp [← hb]

/-- Claim C4: for every pair of values `(a, b)`, the hidden-state
extractor returns the first element `a`, regardless of `b`. -/
theorem get_rnn_hidden_state_pair {α : Type} (a b : PyVal α) :
    get_rnn_hidden_state (PyVal.tuple [a, b]) = some a := rfl

/-- Claim C5: for every input that is a single tensor (not a tuple), the
hidden-state extractor returns it unchanged. -/
theorem get_rnn_hidden_state_tensor {α : Type} (t : α) :
    get_rnn_hidden_state (PyVal.tensor t) = some (PyVal.tensor t) := rfl

/-- Claim C10: the tuple branch is a tuple-type check, not an arity-2
check: for every tuple of length at least one (written `a :: l`), the
extractor returns the tuple's first element. -/
theorem get_rnn_hidden_state_tuple_head {α : Type}
    (a : PyVal α) (l : List (PyVal α)) :
    get_rnn_hidden_state (PyVal.tuple (a :: l)) = some a := rfl

/-- Claim C2: in the masked case, `mean_pool` computes exactly the spec's
algorithm: the sum of the sequence over Time divided elementwise by the
sum of the mask over Time, unsqueezed to `[Batch, 1]` and broadcast over
Features. -/
theorem mean_pool_masked_eq_spec {T B F : ℕ}
    (x : Fin T → Fin B → Fin F → ℚ) (m : Fin T → Fin B → ℚ) :
    mean_pool (x, some m) = specMaskedPool x m := rfl

/-- Claim C3: with the mask absent, `mean_pool` returns the elementwise
mean of the sequence along the Time axis: the sum over Time divided by
`T`. -/
theorem mean_pool_none_eq_mean {T B F : ℕ} (hT : 1 ≤ T)
    (x : Fin T → Fin B → Fin F → ℚ) (b : Fin B) (f : Fin F) :
    mean_pool (x, none) b f = (∑ t, x t b f) / (T : ℚ) := rfl

/-- Witness for claim C3 at `T = 2, B = 1, F = 1` with all entries `5`. -/
theorem mean_pool_none_eq_mean_witness :
    mean_pool (((fun _ _ _ => (5 : ℚ)) : Fin 2 → Fin 1 → Fin 1 → ℚ), none) 0 0
      = (∑ _t : Fin 2, (5 : ℚ)) / ((2 : ℕ) : ℚ) :=
  mean_pool_none_eq_mean (by decide) (fun _ _ _ => (5 : ℚ)) 0 0

/-- Claim C8: the output of `mean_pool`, materialised as nested lists, is
rank 2 with outer length `Batch` and every row of length `Features`, in
both the masked and unmasked branches. -/
theorem mean_pool_shape {T B F : ℕ}
    (data : (Fin T → Fin B → Fin F → ℚ) × Option (Fin T → Fin B → ℚ)) :
    (toLists (mean_pool data)).length = B ∧
      ∀ r ∈ toLists (mean_pool data), r.length = F :=
  ⟨toLists_length _, toLists_row_length _⟩

/-- Claim C6: pooling with an all-ones mask agrees exactly with pooling
with the mask absent. -/
theorem mean_pool_ones_mask_eq_none {T B F : ℕ} (hT : 1 ≤ T)
    (x : Fin T → Fin B → Fin F → ℚ) :
    mean_pool (x, some fun _ _ => (1 : ℚ)) = mean_pool (x, none) := by
  funext b f
  show (∑ t, x t b f) / (∑ _t : Fin T, (1 : ℚ))
      = (∑ t, x t b f) / (T : ℚ)
  simp

/-- Witness for claim C6 at `T = 2, B = 1, F = 1` with entries `0` and
`1` along the time axis. -/
theorem mean_pool_ones_mask_eq_none_witness :
    mean_pool (((fun t _ _ => (t.val : ℚ)) : Fin 2 → Fin 1 → Fin 1 → ℚ),
        some fun _ _ => (1 : ℚ))
      = mean_pool (((fun t _ _ => (t.val : ℚ)) : Fin 2 → Fin 1 → Fin 1 → ℚ),
        none) :=
  mean_pool_ones_mask_eq_none (by decide) _

/-- Claim C7: when the mask sums to zero for some batch element, the code
performs the division anyway, so that element's entries equal the host
division applied with divisor `0`, and the result is still a structurally
valid `[Batch, Features]` tensor. -/
theorem mean_pool_zero_masksum {T B F : ℕ}
    (x : Fin T → Fin B → Fin F → ℚ) (m : Fin T → Fin B → ℚ) (b0 : Fin B)
    (h : ∑ t, m t b0 = 0) :
    (∀ f, mean_pool (x, some m) b0 f = (∑ t, x t b0 f) / 0) ∧
      (toLists (mean_pool (x, some m))).length = B ∧
      ∀ r ∈ toLists (mean_pool (x, some m)), r.length = F := by
  refine ⟨fun f => ?_, toLists_length _, toLists_row_length _⟩
  show (∑ t, x t b0 f) / (∑ t, m t b0) = (∑ t, x t b0 f) / 0
  rw [h]

/-- Witness for claim C7 at `T = 2, B = 1, F = 1` with an all-zero
mask. -/
theorem mean_pool_zero_masksum_witness :
    (∀ f, mean_pool (((fun _ _ _ => (1 : ℚ)) : Fin 2 → Fin 1 → Fin 1 → ℚ),
          some fun _ _ => (0 : ℚ)) 0 f = (∑ _t : Fin 2, (1 : ℚ)) / 0) ∧
      (toLists (mean_pool (((fun _ _ _ => (1 : ℚ)) : Fin 2 → Fin 1 → Fin 1 → ℚ),
          some fun _ _ => (0 : ℚ)))).length = 1 ∧
      ∀ r ∈ toLists (mean_pool (((fun _ _ _ => (1 : ℚ)) : Fin 2 → Fin 1 → Fin 1 → ℚ),
          some fun _ _ => (0 : ℚ))), r.length = 1 :=
  mean_pool_zero_masksum _ _ 0 (by simp)

/-- Counterexample to claim C1 as stated: on the spec's own example
(`x = [[1],[2],[3]]`, `mask = [[1],[0],[1]]`) the code returns
`(1 + 2 + 3) / 2 = 3`, because the numerator sums all time steps, not
only the valid ones; the claimed value `2` is wrong. -/
theorem mean_pool_example_ne_two :
    mean_pool (xEx, some maskEx) 0 0 = 3 ∧
      mean_pool (xEx, some maskEx) 0 0 ≠ 2 := by
  have h : mean_pool (xEx, some maskEx) 0 0 = 3 := by
    show (∑ t, xEx t 0 0) / (∑ t, maskEx t 0) = 3
    rw [Fin.sum_univ_three, Fin.sum_univ_three]
    norm_num [xEx, maskEx]
  refine ⟨h, ?_⟩
  rw [h]
  norm_num

/-- Claim C1 (amended): for a 0/1 mask with at least one valid step per
batch element, and a sequence that is zero at every masked-out position,
the masked pool equals the arithmetic mean of the feature vectors over
only the valid time steps. -/
theorem mean_pool_masked_mean_of_zero_padded {T B F : ℕ}
    (x : Fin T → Fin B → Fin F → ℚ) (m : Fin T → Fin B → ℚ)
    (hbin : ∀ t b, m t b = 0 ∨ m t b = 1)
    (hvalid : ∀ b, ∃ t, m t b = 1)
    (hpad : ∀ t b f, m t b = 0 → x t b f = 0)
    (b : Fin B) (f : Fin F) :
    mean_pool (x, some m) b f
      = (∑ t ∈ validSteps m b, x t b f) / ((validSteps m b).card : ℚ) := by
  have hnum : (∑ t ∈ validSteps m b, x t b f) = ∑ t, x t b f := by
    rw [validSteps]
    apply Finset.sum_filter_of_ne
    intro t _ hx
    rcases hbin t b with h0 | h1
    · exact absurd (hpad t b f h0) hx
    · exact h1
  have hden : (∑ t, m t b) = ((validSteps m b).card : ℚ) := by
    rw [validSteps, ← Finset.sum_boole]
    apply Finset.sum_congr rfl
    intro t _
    rcases hbin t b with h0 | h1
    · simp [h0]
    · simp [h1]
  show (∑ t, x t b f) / (∑ t, m t b) = _
  rw [← hnum, hden]

/-- Witness for the amended claim C1: the zero-padded example
`x = [[1],[0],[3]]`, `mask = [[1],[0],[1]]`. -/
theorem mean_pool_masked_mean_of_zero_padded_witness :
    mean_pool (xPad, some maskEx) 0 0
      = (∑ t ∈ validSteps maskEx 0, xPad t 0 0)
        / ((validSteps maskEx 0).card : ℚ) :=
  mean_pool_masked_mean_of_zero_padded xPad maskEx
    (by decide) (by decide) (by decide) 0 0

end NN
